import Mathlib

/-!
Shallow embedding of the `current-adas` utility modules:

* `src/util/table_dto.py` — `TableDto`, a tabular container for physiological
  time-series data with a header (ordered column names), a row-major data
  matrix, a cached row count `len`, and a derived sampling rate.  Timestamps
  live in the column named `"Timestamp"`.
* `src/util/signal_util.py` — `SignalUtil.normalize` and `SignalUtil.energy`.

Numeric values are embedded as rationals (`ℚ`); Python exceptions are embedded
as `Except Err`.  Python's slicing (total, clamping) and element access
(negative-index wrap, `IndexError` out of range) are modelled explicitly.
-/

namespace Adas

/-- Python exception outcomes the embedded code can produce.
`valueError t` is `ValueError('could not find %f in data' % t)` — it carries
the offending time value.  `valueErrorEmpty` is the `ValueError` raised by
`min()`/`max()` on an empty sequence.  `typeError` arises from operations on
`None` (e.g. `min(None)` or subscripting `None`).  `indexError` is an
out-of-range element access. -/
inductive Err where
  | valueError (time : ℚ)
  | valueErrorEmpty
  | typeError
  | indexError
  deriving DecidableEq

/-- Python slice `l[a:b]`: negative indices count from the end, bounds are
clamped to `[0, len]`; slicing never raises. -/
def pySlice {α : Type} (l : List α) (a b : Int) : List α :=
  let n : Int := l.length
  let a2 := if a < 0 then max (n + a) 0 else min a n
  let b2 := if b < 0 then max (n + b) 0 else min b n
  (l.drop a2.toNat).take (b2 - a2).toNat

/-- Python element access `l[i]`: a negative index counts from the end;
out of range raises `IndexError`. -/
def pyGet (l : List ℚ) (i : Int) : Except Err ℚ :=
  let n : Int := l.length
  let j := if i < 0 then i + n else i
  if 0 ≤ j ∧ j < n then .ok (l.getD j.toNat 0) else .error .indexError

/-- numpy column extraction `data[:, i]` from a row-major matrix: raises
`IndexError` when some row has no entry at position `i`. -/
def colAt (rows : List (List ℚ)) (i : Nat) : Except Err (List ℚ) :=
  if rows.all (fun row => decide (i < row.length)) then
    .ok (rows.map (fun row => row.getD i 0))
  else .error .indexError

/-- `TIMESTAMP_STRING = "Timestamp"`: key of the unix-timestamp column. -/
def TIMESTAMP_STRING : String := "Timestamp"

/-- A numpy `float64` scalar as produced by the sampling-rate computation:
either a finite value, or one of the non-finite IEEE values `inf`, `-inf`,
`nan` that numpy produces (with a `RuntimeWarning`, not an exception) when
dividing by zero. -/
inductive NpFloat where
  | finite (q : ℚ)
  | posInf
  | negInf
  | nan
  deriving DecidableEq

/-- numpy scalar division `n / d`: for a zero divisor numpy does NOT raise
`ZeroDivisionError`; it emits a `RuntimeWarning` and returns `inf`, `-inf`
or `nan` according to the sign of the dividend. -/
def npDiv (n d : ℚ) : NpFloat :=
  if d = 0 then (if 0 < n then .posInf else if n < 0 then .negInf else .nan)
  else .finite (n / d)

/-- State of a `TableDto` object: file path, header (ordered column names),
optional data matrix (`none` models Python `None`), the cached row count
`self.len`, and the sampling rate field (a numpy float scalar). -/
structure TableDto where
  filePath : String
  header : List String
  data : Option (List (List ℚ))
  len : Nat
  samplingRate : NpFloat
  deriving DecidableEq

/-- `setData(data)`: stores the matrix; recomputes `self.len = len(data)`
only when the new data is not `None`. -/
def setData (t : TableDto) (d : Option (List (List ℚ))) : TableDto :=
  match d with
  | some rows => { t with data := some rows, len := rows.length }
  | none => { t with data := none }

/-- `getColumn(columnName, offset=0, limit=-1, length=-1)`: `None` when the
name is absent from the header; otherwise resolves the limit (`-1` acting as
the sentinel for "not given"), locates the column by header position, and
returns the Python slice `data[:, index][offset:limit]`. -/
def getColumn (t : TableDto) (columnName : String) (offset limit length : Int) :
    Except Err (Option (List ℚ)) :=
  if columnName ∈ t.header then
    let lim := if limit = -1 then (if length = -1 then (t.len : Int) else offset + length)
      else limit
    let index := t.header.indexOf columnName
    match t.data with
    | none => .error .typeError
    | some rows =>
      match colAt rows index with
      | .ok col => .ok (some (pySlice col offset lim))
      | .error e => .error e
  else .ok none

/-- `getTime(offset=0, limit=-1, length=-1)`: shorthand for
`getColumn(TIMESTAMP_STRING, offset, limit, length)`. -/
def getTime (t : TableDto) (offset limit length : Int) : Except Err (Option (List ℚ)) :=
  getColumn t TIMESTAMP_STRING offset limit length

/-- `_timeInData(data, time)`: `min(data) <= time <= max(data)`; `min`/`max`
of an empty sequence raise a `ValueError`. -/
def timeInData (data : List ℚ) (time : ℚ) : Except Err Bool :=
  match data.min?, data.max? with
  | some mn, some mx => .ok (decide (mn ≤ time) && decide (time ≤ mx))
  | _, _ => .error .valueErrorEmpty

/-- The scan loop of `getTimeIndex`: the index of the first element
`>= fromTime`; `none` models the implicit `None` when the loop falls
through. -/
def firstGE (fromTime : ℚ) : List ℚ → Option Nat
  | [] => none
  | time :: rest => if fromTime ≤ time then some 0 else (firstGE fromTime rest).map (· + 1)

/-- `getTimeIndex(fromTime)`: fetch the timestamp column, raise
`ValueError` when `fromTime` is not within its min/max bounds, otherwise scan
for the first row whose timestamp is `>= fromTime`. -/
def getTimeIndex (t : TableDto) (fromTime : ℚ) : Except Err (Option Nat) :=
  match getColumn t TIMESTAMP_STRING 0 (-1) (-1) with
  | .error e => .error e
  | .ok none => .error .typeError
  | .ok (some data) =>
    match timeInData data fromTime with
    | .error e => .error e
    | .ok false => .error (.valueError fromTime)
    | .ok true => .ok (firstGE fromTime data)

/-- `_switchTime(time1, time2)`: returns the pair reversed. -/
def switchTime (time1 time2 : ℚ) : ℚ × ℚ := (time2, time1)

/-- The scan loop of `getColumnByTime`, carried out from row index `i` with
accumulator `fromIndex` (initially `-1`): sets `fromIndex` at the first
element `>= fromTime`, and breaks with `toIndex = i` at the first element
`>= toTime`; falling through leaves `toIndex = -1`. -/
def scanGo (fromTime toTime : ℚ) : List ℚ → Nat → Int → Int × Int
  | [], _, fromIndex => (fromIndex, -1)
  | time :: rest, i, fromIndex =>
    let fi := if fromTime ≤ time ∧ fromIndex = -1 then (i : Int) else fromIndex
    if toTime ≤ time then (fi, (i : Int)) else scanGo fromTime toTime rest (i + 1) fi

/-- The full scan of `getColumnByTime`, starting at row 0 with both indices
`-1`. -/
def scanIndices (data : List ℚ) (fromTime toTime : ℚ) : Int × Int :=
  scanGo fromTime toTime data 0 (-1)

/-- `getColumnByTime(columnName, fromTime, toTime)`: swap the bounds if
`fromTime > toTime`, fetch the timestamp column, raise `ValueError` for a
bound outside its min/max range (the error carries that bound), scan for the
start/end row indices, and delegate to `getColumn(columnName, fromIndex,
toIndex)`. -/
def getColumnByTime (t : TableDto) (columnName : String) (fromTime toTime : ℚ) :
    Except Err (Option (List ℚ)) :=
  let p := if toTime < fromTime then switchTime fromTime toTime else (fromTime, toTime)
  match getColumn t TIMESTAMP_STRING 0 (-1) (-1) with
  | .error e => .error e
  | .ok none => .error .typeError
  | .ok (some data) =>
    match timeInData data p.1 with
    | .error e => .error e
    | .ok false => .error (.valueError p.1)
    | .ok true =>
      match timeInData data p.2 with
      | .error e => .error e
      | .ok false => .error (.valueError p.2)
      | .ok true =>
        let idx := scanIndices data p.1 p.2
        getColumn t columnName idx.1 idx.2 (-1)

/-- `getDuration()`: `data[self.len - 1] - data[0]` over the timestamp
column (`None` column gives a `TypeError`, out-of-range subscripts an
`IndexError`). -/
def getDuration (t : TableDto) : Except Err ℚ :=
  match getTime t 0 (-1) (-1) with
  | .error e => .error e
  | .ok none => .error .typeError
  | .ok (some data) =>
    match pyGet data ((t.len : Int) - 1) with
    | .error e => .error e
    | .ok last =>
      match pyGet data 0 with
      | .error e => .error e
      | .ok first => .ok (last - first)

/-- `_calcSamplingRate()`: `self.len / duration` guarded by a blanket
`except` returning `0.0`.  The handler fires only when `getDuration` itself
raises (`IndexError` on empty data, `TypeError` on `None`); the division is
int over a numpy `float64` scalar, which never raises — for a zero duration
it returns `inf` (or `nan`) with a `RuntimeWarning`, bypassing the
handler. -/
def calcSamplingRate (t : TableDto) : NpFloat :=
  match getDuration t with
  | .error _ => .finite 0
  | .ok duration => npDiv (t.len : ℚ) duration

/-- `setSamplingRate(samplingRate=None)`: store the given rate, or derive it
via `_calcSamplingRate` when `None` is given. -/
def setSamplingRate (t : TableDto) (samplingRate : Option NpFloat) : TableDto :=
  match samplingRate with
  | some r => { t with samplingRate := r }
  | none => { t with samplingRate := calcSamplingRate t }

/-- `getSamplingRate()`. -/
def getSamplingRate (t : TableDto) : NpFloat := t.samplingRate

/-- `TableDto.__init__(header, data, filePath, samplingRate)`: stores the
header and file path, then runs `setData` and `setSamplingRate`. -/
def TableDto.make (header : List String) (data : Option (List (List ℚ)))
    (filePath : String) (samplingRate : Option NpFloat) : TableDto :=
  let t0 : TableDto :=
    { filePath := filePath, header := header, data := none, len := 0,
      samplingRate := .finite 0 }
  setSamplingRate (setData t0 data) samplingRate

/-- `SignalUtil.normalize(data)`: identity when `count_nonzero(data) == 0`;
otherwise divide every element by `max(max(data), abs(min(data)))`.  (The
final arm is unreachable: a nonzero count forces a nonempty list, whose
`min?`/`max?` are `some`.) -/
def normalize (data : List ℚ) : List ℚ :=
  if data.countP (fun x => decide (x ≠ 0)) = 0 then data
  else
    match data.max?, data.min? with
    | some mx, some mn => data.map (fun x => x / max mx |mn|)
    | _, _ => data

/-- `SignalUtil.energy(data)`: `sum(data ** 2)` — elementwise square, then
sum. -/
def energy (data : List ℚ) : ℚ := (data.map (fun x => x ^ 2)).sum

/-- Spec-side predicate, following the spec's wording: `i` is the index of
the first row whose timestamp is `>= bound`. -/
def IsFirstGE (data : List ℚ) (bound : ℚ) (i : Nat) : Prop :=
  i < data.length ∧ bound ≤ data.getD i 0 ∧ ∀ j < i, data.getD j 0 < bound

/-- Spec-side predicate, following the spec's wording: `time` lies within
`[min(timestamp), max(timestamp)]`. -/
def InTimeRange (data : List ℚ) (time : ℚ) : Prop :=
  ∃ mn mx, data.min? = some mn ∧ data.max? = some mx ∧ mn ≤ time ∧ time ≤ mx

/-- Spec-side resolved slice limit for `getColumn`, following the spec's
resolution rule: `limit` itself when given, else `offset + length` when
`length` is given, else the full row count. -/
def resolvedLimit (rowCount : Nat) (offset limit length : Int) : Int :=
  if limit ≠ -1 then limit else if length ≠ -1 then offset + length else (rowCount : Int)

/-- The worked example table of the spec: timestamps `[0,1,2,3,4,5]`, data
column `[10,20,30,40,50,60]`, constructed without an explicit sampling
rate. -/
def exTable : TableDto :=
  TableDto.make ["Timestamp", "data"]
    (some [[0, 10], [1, 20], [2, 30], [3, 40], [4, 50], [5, 60]]) "" none

attribute [local semireducible] Rat.mul Rat.inv Rat.add Rat.sub Rat.ofScientific

lemma min?_le_of_mem {l : List ℚ} {mn x : ℚ} (h : l.min? = some mn) (hx : x ∈ l) :
    mn ≤ x :=
  (List.le_min?_iff (fun _ _ _ => le_min_iff) h).1 le_rfl x hx

lemma le_max?_of_mem {l : List ℚ} {mx x : ℚ} (h : l.max? = some mx) (hx : x ∈ l) :
    x ≤ mx :=
  (List.max?_le_iff (fun _ _ _ => max_le_iff) h).1 le_rfl x hx

lemma max?_mem_self {l : List ℚ} {mx : ℚ} (h : l.max? = some mx) : mx ∈ l :=
  List.max?_mem max_choice h

lemma min?_mem_self {l : List ℚ} {mn : ℚ} (h : l.min? = some mn) : mn ∈ l :=
  List.min?_mem min_choice h

lemma exists_min?_max? {l : List ℚ} (hne : l ≠ []) :
    ∃ mn mx, l.min? = some mn ∧ l.max? = some mx := by
  cases l with
  | nil => exact absurd rfl hne
  | cons x xs => exact ⟨_, _, rfl, rfl⟩

lemma timeInData_ok_true_iff (data : List ℚ) (time : ℚ) :
    timeInData data time = .ok true ↔ InTimeRange data time := by
  unfold timeInData InTimeRange
  cases hmn : data.min? with
  | none =>
    have : data = [] := List.min?_eq_none_iff.1 hmn
    subst this
    simp
  | some mn =>
    cases hmx : data.max? with
    | none =>
      have : data = [] := List.max?_eq_none_iff.1 hmx
      subst this
      simp at hmn
    | some mx =>
      constructor
      · intro h
        simp only [Except.ok.injEq, Bool.and_eq_true, decide_eq_true_eq] at h
        exact ⟨mn, mx, rfl, rfl, h.1, h.2⟩
      · rintro ⟨mn2, mx2, h1, h2, h3, h4⟩
        cases h1
        cases h2
        simp [h3, h4]

lemma timeInData_ok_false_iff {data : List ℚ} (hne : data ≠ []) (time : ℚ) :
    timeInData data time = .ok false ↔ ¬ InTimeRange data time := by
  obtain ⟨mn, mx, hmn, hmx⟩ := exists_min?_max? hne
  rw [← timeInData_ok_true_iff]
  unfold timeInData
  rw [hmn, hmx]
  constructor
  · intro h hcontra
    simp only [Except.ok.injEq] at h hcontra
    rw [hcontra] at h
    cases h
  · intro h
    simp only [Except.ok.injEq] at h ⊢
    cases hb : (decide (mn ≤ time) && decide (time ≤ mx)) with
    | false => rfl
    | true => exact absurd hb h

lemma colAt_ok {rows : List (List ℚ)} {idx : Nat} (h : ∀ row ∈ rows, idx < row.length) :
    colAt rows idx = .ok (rows.map (fun row => row.getD idx 0)) := by
  unfold colAt
  rw [if_pos]
  rw [List.all_eq_true]
  intro row hrow
  exact decide_eq_true (h row hrow)

lemma resolvedLimit_eq (rowCount : Nat) (offset limit length : Int) :
    (if limit = -1 then (if length = -1 then (rowCount : Int) else offset + length)
      else limit) = resolvedLimit rowCount offset limit length := by
  unfold resolvedLimit
  by_cases h1 : limit = -1
  · by_cases h2 : length = -1 <;> simp [h1, h2]
  · simp [h1]

lemma getColumn_eq_of_mem {t : TableDto} {name : String} (offset limit length : Int)
    {rows : List (List ℚ)} (hd : t.data = some rows)
    (hw : ∀ row ∈ rows, t.header.length ≤ row.length) (hm : name ∈ t.header) :
    getColumn t name offset limit length =
      .ok (some (pySlice (rows.map (fun row => row.getD (t.header.indexOf name) 0))
        offset (resolvedLimit t.len offset limit length))) := by
  unfold getColumn
  rw [if_pos hm, hd]
  have hidx : t.header.indexOf name < t.header.length := List.indexOf_lt_length.2 hm
  simp only [colAt_ok (fun row hrow => lt_of_lt_of_le hidx (hw row hrow)), resolvedLimit_eq]

lemma getColumn_not_mem {t : TableDto} {name : String} (offset limit length : Int)
    (hm : name ∉ t.header) : getColumn t name offset limit length = .ok none := by
  unfold getColumn
  rw [if_neg hm]

lemma getColumn_ne_valueError (t : TableDto) (name : String) (offset limit length : Int)
    (q : ℚ) : getColumn t name offset limit length ≠ .error (.valueError q) := by
  unfold getColumn
  by_cases hm : name ∈ t.header
  · rw [if_pos hm]
    cases t.data with
    | none => simp
    | some rows =>
      simp only
      unfold colAt
      by_cases hall : rows.all (fun row => decide (t.header.indexOf name < row.length))
      · rw [if_pos hall]
        simp
      · rw [if_neg hall]
        simp
  · rw [if_neg hm]
    simp

/-- C4: `getColumnByTime` is symmetric in its two time bounds: reversed
bounds are swapped back by `_switchTime` before any lookup, so
`getColumnByTime(name, toTime, fromTime)` returns the same result (value or
error) as `getColumnByTime(name, fromTime, toTime)`, for every table,
column name and pair of times. -/
theorem getColumnByTime_symm (t : TableDto) (name : String) (fromTime toTime : ℚ) :
    getColumnByTime t name toTime fromTime = getColumnByTime t name fromTime toTime := by
  unfold getColumnByTime switchTime
  rcases lt_trichotomy fromTime toTime with h | h | h
  · rw [if_pos h, if_neg (not_lt.2 h.le)]
  · rw [h]
  · rw [if_neg (not_lt.2 h.le), if_pos h]

/-- C8: `setData` with non-`None` data updates the data field and recomputes
the cached row count, but leaves the sampling rate, the header and the file
path untouched: the sampling rate is not recomputed on data mutation. -/
theorem setData_frame (t : TableDto) (rows : List (List ℚ)) :
    (setData t (some rows)).data = some rows ∧
    (setData t (some rows)).len = rows.length ∧
    (setData t (some rows)).samplingRate = t.samplingRate ∧
    (setData t (some rows)).header = t.header :=
  ⟨rfl, rfl, rfl, rfl⟩

/-- C9: `energy` is exactly the sum of the squares of the elements. -/
theorem energy_eq_sum_squares (d : List ℚ) : energy d = (d.map (fun x => x * x)).sum := by
  simp [energy, pow_two]

lemma firstGE_nil (b : ℚ) : firstGE b [] = none := rfl

lemma firstGE_cons (b x : ℚ) (xs : List ℚ) :
    firstGE b (x :: xs) = if b ≤ x then some 0 else (firstGE b xs).map (· + 1) := rfl

lemma firstGE_eq_some_iff (b : ℚ) :
    ∀ (l : List ℚ) (i : Nat), firstGE b l = some i ↔ IsFirstGE l b i := by
  intro l
  induction l with
  | nil =>
    intro i
    simp [firstGE_nil, IsFirstGE]
  | cons x xs ih =>
    intro i
    rw [firstGE_cons]
    unfold IsFirstGE
    by_cases hbx : b ≤ x
    · rw [if_pos hbx]
      constructor
      · intro h
        cases h
        exact ⟨Nat.succ_pos _, by simpa using hbx, fun j hj => absurd hj (Nat.not_lt_zero j)⟩
      · rintro ⟨h1, h2, h3⟩
        cases i with
        | zero => rfl
        | succ k => exact absurd (h3 0 (Nat.succ_pos k)) (not_lt.2 (by simpa using hbx))
    · rw [if_neg hbx]
      have hxb : x < b := not_le.1 hbx
      constructor
      · intro h
        rw [Option.map_eq_some'] at h
        obtain ⟨j, hj, rfl⟩ := h
        obtain ⟨hl, hge, hmin⟩ := (ih j).1 hj
        refine ⟨Nat.succ_lt_succ hl, by simpa using hge, ?_⟩
        intro k hk
        cases k with
        | zero => simpa using hxb
        | succ m => simpa using hmin m (Nat.lt_of_succ_lt_succ hk)
      · rintro ⟨h1, h2, h3⟩
        cases i with
        | zero => exact absurd (by simpa using h2) hbx
        | succ k =>
          rw [Option.map_eq_some']
          refine ⟨k, (ih k).2 ⟨Nat.lt_of_succ_lt_succ h1, by simpa using h2, ?_⟩, rfl⟩
          intro j hj
          simpa using h3 (j + 1) (Nat.succ_lt_succ hj)

lemma firstGE_isSome {b : ℚ} {l : List ℚ} (h : ∃ x ∈ l, b ≤ x) :
    ∃ i, firstGE b l = some i := by
  induction l with
  | nil =>
    obtain ⟨x, hx, -⟩ := h
    cases hx
  | cons y ys ih =>
    obtain ⟨x, hx, hbx⟩ := h
    by_cases hby : b ≤ y
    · exact ⟨0, by rw [firstGE_cons, if_pos hby]⟩
    · rcases List.mem_cons.1 hx with rfl | hx2
      · exact absurd hbx hby
      · obtain ⟨i, hi⟩ := ih ⟨x, hx2, hbx⟩
        exact ⟨i + 1, by rw [firstGE_cons, if_neg hby, hi]; rfl⟩

lemma scanGo_nil (ft tt : ℚ) (i : Nat) (c : Int) : scanGo ft tt [] i c = (c, -1) := rfl

lemma scanGo_cons (ft tt time : ℚ) (rest : List ℚ) (i : Nat) (c : Int) :
    scanGo ft tt (time :: rest) i c =
      (if tt ≤ time then ((if ft ≤ time ∧ c = -1 then (i : Int) else c), (i : Int))
       else scanGo ft tt rest (i + 1) (if ft ≤ time ∧ c = -1 then (i : Int) else c)) := rfl

lemma scanGo_found (ft tt : ℚ) :
    ∀ (l : List ℚ) (i : Nat) (c : Int), c ≠ -1 →
      scanGo ft tt l i c = (c, (firstGE tt l).elim (-1) (fun j => ((i + j : Nat) : Int))) := by
  intro l
  induction l with
  | nil =>
    intro i c hc
    simp [scanGo_nil, firstGE_nil]
  | cons time rest ih =>
    intro i c hc
    rw [scanGo_cons]
    have hfi : (if ft ≤ time ∧ c = -1 then (i : Int) else c) = c :=
      if_neg (fun h => hc h.2)
    rw [hfi]
    by_cases htt : tt ≤ time
    · rw [if_pos htt, firstGE_cons, if_pos htt]
      simp
    · rw [if_neg htt, ih (i + 1) c hc, firstGE_cons, if_neg htt]
      cases hr : firstGE tt rest with
      | none => simp
      | some j =>
        simp only [Option.map_some', Option.elim_some, Prod.mk.injEq, true_and]
        congr 1
        omega

lemma scanGo_start (ft tt : ℚ) (h : ft ≤ tt) :
    ∀ (l : List ℚ) (i : Nat),
      scanGo ft tt l i (-1) =
        ((firstGE ft l).elim (-1) (fun j => ((i + j : Nat) : Int)),
         (firstGE tt l).elim (-1) (fun j => ((i + j : Nat) : Int))) := by
  intro l
  induction l with
  | nil =>
    intro i
    simp [scanGo_nil, firstGE_nil]
  | cons time rest ih =>
    intro i
    rw [scanGo_cons]
    by_cases htt : tt ≤ time
    · have hft : ft ≤ time := h.trans htt
      rw [if_pos htt, if_pos ⟨hft, rfl⟩, firstGE_cons, firstGE_cons, if_pos hft, if_pos htt]
      simp
    · rw [if_neg htt]
      by_cases hft : ft ≤ time
      · rw [if_pos ⟨hft, rfl⟩,
          scanGo_found ft tt rest (i + 1) (i : Int) (by omega),
          firstGE_cons, firstGE_cons, if_pos hft, if_neg htt]
        cases hr : firstGE tt rest with
        | none => simp
        | some j =>
          simp only [Option.map_some', Option.elim_some, Prod.mk.injEq]
          refine ⟨by omega, by omega⟩
      · rw [if_neg (fun hand => hft hand.1), ih (i + 1),
          firstGE_cons, firstGE_cons, if_neg hft, if_neg htt]
        cases hr : firstGE ft rest <;> cases hr2 : firstGE tt rest <;>
          simp only [Option.map_some', Option.map_none', Option.elim_some, Option.elim_none,
            Prod.mk.injEq] <;>
          exact ⟨by first | trivial | omega, by first | trivial | omega⟩

lemma scanIndices_eq {data : List ℚ} {ft tt : ℚ} {fi ti : Nat} (h : ft ≤ tt)
    (hfi : firstGE ft data = some fi) (hti : firstGE tt data = some ti) :
    scanIndices data ft tt = ((fi : Int), (ti : Int)) := by
  unfold scanIndices
  rw [scanGo_start ft tt h data 0, hfi, hti]
  simp

/-- C2: on a table whose non-decreasing timestamp column is `data`, for
`fromTime` within `[min(data), max(data)]`, `getTimeIndex` succeeds and
returns the index of the first row whose timestamp is `>= fromTime`. -/
theorem getTimeIndex_first (t : TableDto) (fromTime : ℚ) (data : List ℚ)
    (hdata : getColumn t TIMESTAMP_STRING 0 (-1) (-1) = .ok (some data))
    (hmono : data.Sorted (· ≤ ·))
    (hin : InTimeRange data fromTime) :
    ∃ i, getTimeIndex t fromTime = .ok (some i) ∧ IsFirstGE data fromTime i := by
  obtain ⟨mn, mx, hmn, hmx, h1, h2⟩ := hin
  obtain ⟨i, hi⟩ := firstGE_isSome ⟨mx, max?_mem_self hmx, h2⟩
  refine ⟨i, ?_, (firstGE_eq_some_iff _ _ _).1 hi⟩
  unfold getTimeIndex
  simp only [hdata, (timeInData_ok_true_iff data fromTime).2 ⟨mn, mx, hmn, hmx, h1, h2⟩, hi]

/-- C1: on a table whose non-decreasing timestamp column is `data`, for
bounds inside `[min(data), max(data)]` with `fromTime <= toTime`,
`getColumnByTime(name, fromTime, toTime)` returns exactly
`getColumn(name, fromIndex, toIndex)`, where `fromIndex` is the index of the
first row whose timestamp is `>= fromTime` (inclusive start) and `toIndex`
the index of the first row whose timestamp is `>= toTime` (exclusive
end). -/
theorem getColumnByTime_eq_getColumn (t : TableDto) (name : String)
    (fromTime toTime : ℚ) (data : List ℚ)
    (hdata : getColumn t TIMESTAMP_STRING 0 (-1) (-1) = .ok (some data))
    (hmono : data.Sorted (· ≤ ·))
    (hfr : InTimeRange data fromTime) (hto : InTimeRange data toTime)
    (hle : fromTime ≤ toTime) :
    ∃ fi ti, IsFirstGE data fromTime fi ∧ IsFirstGE data toTime ti ∧
      getColumnByTime t name fromTime toTime = getColumn t name (fi : Int) (ti : Int) (-1) := by
  obtain ⟨mn, mx, hmn, hmx, ht1, ht2⟩ := hto
  have hmem : mx ∈ data := max?_mem_self hmx
  obtain ⟨ti, hti⟩ := firstGE_isSome ⟨mx, hmem, ht2⟩
  obtain ⟨fi, hfi⟩ := firstGE_isSome ⟨mx, hmem, hle.trans ht2⟩
  refine ⟨fi, ti, (firstGE_eq_some_iff _ _ _).1 hfi, (firstGE_eq_some_iff _ _ _).1 hti, ?_⟩
  unfold getColumnByTime
  rw [if_neg (not_lt.2 hle)]
  simp only [hdata, (timeInData_ok_true_iff data fromTime).2 hfr,
    (timeInData_ok_true_iff data toTime).2 ⟨mn, mx, hmn, hmx, ht1, ht2⟩,
    scanIndices_eq hle hfi hti]

lemma getColumnByTime_shape (t : TableDto) (name : String) (fromTime toTime : ℚ)
    (data : List ℚ)
    (hdata : getColumn t TIMESTAMP_STRING 0 (-1) (-1) = .ok (some data))
    (hne : data ≠ []) :
    ∃ a b, ((a = fromTime ∧ b = toTime) ∨ (a = toTime ∧ b = fromTime)) ∧
      ((¬ InTimeRange data a ∧
          getColumnByTime t name fromTime toTime = .error (.valueError a)) ∨
       (InTimeRange data a ∧ ¬ InTimeRange data b ∧
          getColumnByTime t name fromTime toTime = .error (.valueError b)) ∨
       (InTimeRange data a ∧ InTimeRange data b ∧
          ∃ o lim, getColumnByTime t name fromTime toTime = getColumn t name o lim (-1))) := by
  by_cases hsw : toTime < fromTime
  · refine ⟨toTime, fromTime, Or.inr ⟨rfl, rfl⟩, ?_⟩
    by_cases ha : InTimeRange data toTime
    · by_cases hb : InTimeRange data fromTime
      · refine Or.inr (Or.inr ⟨ha, hb, ?_⟩)
        unfold getColumnByTime switchTime
        rw [if_pos hsw]
        simp only [hdata, (timeInData_ok_true_iff data toTime).2 ha,
          (timeInData_ok_true_iff data fromTime).2 hb]
        exact ⟨_, _, rfl⟩
      · refine Or.inr (Or.inl ⟨ha, hb, ?_⟩)
        unfold getColumnByTime switchTime
        rw [if_pos hsw]
        simp only [hdata, (timeInData_ok_true_iff data toTime).2 ha,
          (timeInData_ok_false_iff hne fromTime).2 hb]
    · refine Or.inl ⟨ha, ?_⟩
      unfold getColumnByTime switchTime
      rw [if_pos hsw]
      simp only [hdata, (timeInData_ok_false_iff hne toTime).2 ha]
  · refine ⟨fromTime, toTime, Or.inl ⟨rfl, rfl⟩, ?_⟩
    by_cases ha : InTimeRange data fromTime
    · by_cases hb : InTimeRange data toTime
      · refine Or.inr (Or.inr ⟨ha, hb, ?_⟩)
        unfold getColumnByTime switchTime
        rw [if_neg hsw]
        simp only [hdata, (timeInData_ok_true_iff data fromTime).2 ha,
          (timeInData_ok_true_iff data toTime).2 hb]
        exact ⟨_, _, rfl⟩
      · refine Or.inr (Or.inl ⟨ha, hb, ?_⟩)
        unfold getColumnByTime switchTime
        rw [if_neg hsw]
        simp only [hdata, (timeInData_ok_true_iff data fromTime).2 ha,
          (timeInData_ok_false_iff hne toTime).2 hb]
    · refine Or.inl ⟨ha, ?_⟩
      unfold getColumnByTime switchTime
      rw [if_neg hsw]
      simp only [hdata, (timeInData_ok_false_iff hne fromTime).2 ha]

/-- C3: on a table whose timestamp column is the non-empty `data`,
`getTimeIndex(fromTime)` raises the `ValueError` carrying `fromTime` exactly
when `fromTime` lies outside `[min(data), max(data)]`; `getColumnByTime`
raises a `ValueError` exactly when at least one of its two bounds lies
outside that range, and any such error carries one of the two bounds — an
offending (out-of-range) one.  (The embedded methods are pure readers: no
call mutates the table, so the state is trivially unchanged on error.) -/
theorem timeRange_error_iff (t : TableDto) (name : String) (fromTime toTime : ℚ)
    (data : List ℚ)
    (hdata : getColumn t TIMESTAMP_STRING 0 (-1) (-1) = .ok (some data))
    (hne : data ≠ []) :
    (getTimeIndex t fromTime = .error (.valueError fromTime) ↔
      ¬ InTimeRange data fromTime) ∧
    ((∃ q, getColumnByTime t name fromTime toTime = .error (.valueError q)) ↔
      (¬ InTimeRange data fromTime ∨ ¬ InTimeRange data toTime)) ∧
    (∀ q, getColumnByTime t name fromTime toTime = .error (.valueError q) →
      (q = fromTime ∨ q = toTime) ∧ ¬ InTimeRange data q) := by
  obtain ⟨a, b, hab, hshape⟩ := getColumnByTime_shape t name fromTime toTime data hdata hne
  refine ⟨?_, ?_, ?_⟩
  · constructor
    · intro herr hin
      have hok : getTimeIndex t fromTime = .ok (firstGE fromTime data) := by
        unfold getTimeIndex
        simp only [hdata, (timeInData_ok_true_iff data fromTime).2 hin]
      rw [hok] at herr
      simp at herr
    · intro hnin
      unfold getTimeIndex
      simp only [hdata, (timeInData_ok_false_iff hne fromTime).2 hnin]
  · constructor
    · rintro ⟨q, hq⟩
      rcases hshape with ⟨hna, heq⟩ | ⟨ha, hnb, heq⟩ | ⟨ha, hb, o, lim, heq⟩
      · rcases hab with ⟨rfl, rfl⟩ | ⟨rfl, rfl⟩
        · exact Or.inl hna
        · exact Or.inr hna
      · rcases hab with ⟨rfl, rfl⟩ | ⟨rfl, rfl⟩
        · exact Or.inr hnb
        · exact Or.inl hnb
      · rw [heq] at hq
        exact absurd hq (getColumn_ne_valueError t name o lim (-1) q)
    · intro hor
      rcases hshape with ⟨hna, heq⟩ | ⟨ha, hnb, heq⟩ | ⟨ha, hb, o, lim, heq⟩
      · exact ⟨a, heq⟩
      · exact ⟨b, heq⟩
      · rcases hab with ⟨rfl, rfl⟩ | ⟨rfl, rfl⟩ <;> rcases hor with h | h <;> contradiction
  · intro q hq
    rcases hshape with ⟨hna, heq⟩ | ⟨ha, hnb, heq⟩ | ⟨ha, hb, o, lim, heq⟩
    · rw [heq] at hq
      simp only [Except.error.injEq, Err.valueError.injEq] at hq
      subst hq
      rcases hab with ⟨rfl, rfl⟩ | ⟨rfl, rfl⟩
      · exact ⟨Or.inl rfl, hna⟩
      · exact ⟨Or.inr rfl, hna⟩
    · rw [heq] at hq
      simp only [Except.error.injEq, Err.valueError.injEq] at hq
      subst hq
      rcases hab with ⟨rfl, rfl⟩ | ⟨rfl, rfl⟩
      · exact ⟨Or.inr rfl, hnb⟩
      · exact ⟨Or.inl rfl, hnb⟩
    · rw [heq] at hq
      exact absurd hq (getColumn_ne_valueError t name o lim (-1) q)

/-- C5: `getColumn` returns the explicit absent-value result `None` (without
raising) when the name is not in the header; otherwise it returns the slice
`[offset:resolvedLimit]` of the column at the name's header position, where
the resolved limit is `limit` itself when `limit != -1` (`length` then
ignored), else `offset + length` when `length != -1`, else the full row
count. -/
theorem getColumn_resolution (t : TableDto) (name : String) (offset limit length : Int)
    (rows : List (List ℚ)) (hd : t.data = some rows)
    (hw : ∀ row ∈ rows, t.header.length ≤ row.length) :
    (name ∉ t.header → getColumn t name offset limit length = .ok none) ∧
    (name ∈ t.header → getColumn t name offset limit length =
      .ok (some (pySlice (rows.map (fun row => row.getD (t.header.indexOf name) 0))
        offset (resolvedLimit t.len offset limit length)))) :=
  ⟨fun hm => getColumn_not_mem offset limit length hm,
   fun hm => getColumn_eq_of_mem offset limit length hd hw hm⟩

/-- C6 (amended): for a table constructed without an explicitly supplied
sampling rate, `getSamplingRate()` equals `rowCount / duration` whenever the
duration computation succeeds with a nonzero value, and equals `0.0`
whenever the duration computation raises (empty or missing data) — that
failure is absorbed inside `_calcSamplingRate`.  But when the duration is
zero with a nonzero row count (single-row or constant-timestamp data), the
numpy division returns `inf` with a `RuntimeWarning` instead of raising, so
the blanket `except` never fires and the sampling rate is `inf`, not
`0.0`. -/
theorem samplingRate_default (header : List String) (rows : List (List ℚ)) (fp : String) :
    (∀ d, getDuration (TableDto.make header (some rows) fp none) = .ok d → d ≠ 0 →
      getSamplingRate (TableDto.make header (some rows) fp none) =
        .finite ((rows.length : ℚ) / d)) ∧
    (∀ e, getDuration (TableDto.make header (some rows) fp none) = .error e →
      getSamplingRate (TableDto.make header (some rows) fp none) = .finite 0) ∧
    (getDuration (TableDto.make header (some rows) fp none) = .ok 0 → 0 < rows.length →
      getSamplingRate (TableDto.make header (some rows) fp none) = .posInf) := by
  have hrate : getSamplingRate (TableDto.make header (some rows) fp none) =
      calcSamplingRate
        { filePath := fp, header := header, data := some rows,
          len := rows.length, samplingRate := .finite 0 } := rfl
  have hdur : getDuration (TableDto.make header (some rows) fp none) =
      getDuration
        { filePath := fp, header := header, data := some rows,
          len := rows.length, samplingRate := .finite 0 } := rfl
  refine ⟨?_, ?_, ?_⟩
  · intro d hd hdne
    rw [hrate]
    unfold calcSamplingRate npDiv
    simp only [hdur.symm.trans hd, if_neg hdne]
  · intro e hd
    rw [hrate]
    unfold calcSamplingRate
    simp only [hdur.symm.trans hd]
  · intro hd hlen
    rw [hrate]
    unfold calcSamplingRate npDiv
    have hcast : (0 : ℚ) < ((rows.length : ℚ)) := by
      exact_mod_cast hlen
    simp [hdur.symm.trans hd, hcast]

/-- Counterexample for C6 as originally stated: a two-row table with a
constant timestamp column has `getDuration() = 0` (no exception is raised),
and its derived sampling rate is numpy `inf` — not `0.0` as the claim
asserts for zero-duration data. -/
theorem samplingRate_zero_duration_counterexample :
    getDuration (TableDto.make ["Timestamp", "data"] (some [[5, 1], [5, 2]]) "" none) =
      .ok 0 ∧
    getSamplingRate (TableDto.make ["Timestamp", "data"] (some [[5, 1], [5, 2]]) "" none) =
      .posInf ∧
    NpFloat.posInf ≠ NpFloat.finite 0 :=
  ⟨rfl, rfl, by decide⟩

/-- C7: for non-empty numeric data, every element of `normalize(d)` lies in
`[-1, 1]`; when some element is nonzero, `normalize` divides every element by
`max(max(d), abs(min(d)))`; and when every element is zero it returns the
input unchanged. -/
theorem normalize_unit_range (d : List ℚ) (hne : d ≠ []) :
    (∀ x ∈ Adas.normalize d, -1 ≤ x ∧ x ≤ 1) ∧
    (∀ mx mn, d.max? = some mx → d.min? = some mn → (∃ y ∈ d, y ≠ 0) →
      Adas.normalize d = d.map (fun x => x / max mx |mn|)) ∧
    ((∀ x ∈ d, x = 0) → Adas.normalize d = d) := by
  have hdiv : ∀ mx mn, d.max? = some mx → d.min? = some mn → (∃ y ∈ d, y ≠ 0) →
      Adas.normalize d = d.map (fun x => x / max mx |mn|) := by
    intro mx mn hmx hmn hex
    have hc : d.countP (fun x => decide (x ≠ 0)) ≠ 0 := by
      obtain ⟨y, hy, hy0⟩ := hex
      have hpos : 0 < d.countP (fun x => decide (x ≠ 0)) :=
        List.countP_pos.2 ⟨y, hy, decide_eq_true hy0⟩
      omega
    unfold normalize
    rw [if_neg hc]
    simp only [hmx, hmn]
  have hzero : (∀ x ∈ d, x = 0) → Adas.normalize d = d := by
    intro hz
    have hc : d.countP (fun x => decide (x ≠ 0)) = 0 :=
      List.countP_eq_zero.2 (fun a ha => by simp [hz a ha])
    unfold normalize
    rw [if_pos hc]
  refine ⟨?_, hdiv, hzero⟩
  by_cases hc : d.countP (fun x => decide (x ≠ 0)) = 0
  · have hz : ∀ y ∈ d, y = 0 := by
      intro y hy
      have := List.countP_eq_zero.1 hc y hy
      simpa using this
    have hnd : Adas.normalize d = d := hzero hz
    intro x hx
    rw [hnd] at hx
    rw [hz x hx]
    norm_num
  · obtain ⟨mn, mx, hmn, hmx⟩ := exists_min?_max? hne
    have hex : ∃ y ∈ d, y ≠ 0 := by
      obtain ⟨y, hy, hp⟩ := List.countP_pos.1 (Nat.pos_of_ne_zero hc)
      exact ⟨y, hy, by simpa using hp⟩
    have heq := hdiv mx mn hmx hmn hex
    obtain ⟨y, hy, hy0⟩ := hex
    have hymx : y ≤ mx := le_max?_of_mem hmx hy
    have hmny : mn ≤ y := min?_le_of_mem hmn hy
    have hpos : 0 < max mx |mn| := by
      rcases lt_trichotomy y 0 with hneg | hzy | hposy
      · have hmn0 : mn < 0 := lt_of_le_of_lt hmny hneg
        exact lt_of_lt_of_le (abs_pos.2 (ne_of_lt hmn0)) (le_max_right _ _)
      · exact absurd hzy hy0
      · exact lt_of_lt_of_le (lt_of_lt_of_le hposy hymx) (le_max_left _ _)
    intro x hx
    rw [heq] at hx
    obtain ⟨x0, hx0, rfl⟩ := List.mem_map.1 hx
    have h1 : x0 ≤ max mx |mn| := le_trans (le_max?_of_mem hmx hx0) (le_max_left _ _)
    have h2 : -(max mx |mn|) ≤ x0 := by
      have hnab : -|mn| ≤ mn := neg_abs_le mn
      have h3 : mn ≤ x0 := min?_le_of_mem hmn hx0
      have h4 : |mn| ≤ max mx |mn| := le_max_right _ _
      linarith
    constructor
    · rw [le_div_iff hpos]
      linarith
    · rw [div_le_one hpos]
      exact h1

/-- C10: for a rectangular table and a column name present in the header,
`getColumn` is total in `offset`, `limit` and `length`: for any integer
arguments it returns some sequence via Python slice clamping and never
raises. -/
theorem getColumn_total (t : TableDto) (name : String) (offset limit length : Int)
    (rows : List (List ℚ)) (hd : t.data = some rows)
    (hw : ∀ row ∈ rows, t.header.length ≤ row.length) (hm : name ∈ t.header) :
    ∃ res, getColumn t name offset limit length = .ok (some res) :=
  ⟨_, getColumn_eq_of_mem offset limit length hd hw hm⟩

/-- Witness for C1, on the spec's worked example: `getColumnByTime("data",
1, 3)` returns `[20, 30]` and coincides with `getColumn` at the first
indices `>= 1` and `>= 3`. -/
theorem getColumnByTime_eq_getColumn_witness :
    getColumnByTime exTable "data" 1 3 = .ok (some [20, 30]) ∧
    (∃ fi ti, IsFirstGE [0, 1, 2, 3, 4, 5] 1 fi ∧ IsFirstGE [0, 1, 2, 3, 4, 5] 3 ti ∧
      getColumnByTime exTable "data" 1 3 = getColumn exTable "data" (fi : Int) (ti : Int) (-1)) :=
  ⟨rfl, getColumnByTime_eq_getColumn exTable "data" 1 3 [0, 1, 2, 3, 4, 5] rfl (by decide)
    ⟨0, 5, rfl, rfl, by norm_num, by norm_num⟩ ⟨0, 5, rfl, rfl, by norm_num, by norm_num⟩
    (by norm_num)⟩

/-- Witness for C2, on the spec's worked example: `getTimeIndex(2.5)`
returns `3`, the first index whose timestamp is `>= 2.5`. -/
theorem getTimeIndex_first_witness :
    getTimeIndex exTable (5 / 2) = .ok (some 3) ∧
    (∃ i, getTimeIndex exTable (5 / 2) = .ok (some i) ∧
      IsFirstGE [0, 1, 2, 3, 4, 5] (5 / 2) i) :=
  ⟨rfl, getTimeIndex_first exTable (5 / 2) [0, 1, 2, 3, 4, 5] rfl (by decide)
    ⟨0, 5, rfl, rfl, by norm_num, by norm_num⟩⟩

/-- Witness for C3: on the worked example (timestamps `0..5`), the time `7`
is out of range, so `getTimeIndex(7)` raises the `ValueError` carrying `7`,
and `getColumnByTime("data", 7, 1)` raises a `ValueError` too. -/
theorem timeRange_error_iff_witness :
    getTimeIndex exTable 7 = .error (.valueError 7) ∧
    (∃ q, getColumnByTime exTable "data" 7 1 = .error (.valueError q)) := by
  have h := timeRange_error_iff exTable "data" 7 1 [0, 1, 2, 3, 4, 5] rfl (by decide)
  have hnin : ¬ InTimeRange [0, 1, 2, 3, 4, 5] (7 : ℚ) := by
    rintro ⟨mn, mx, hmn, hmx, h1, h2⟩
    rw [show ([0, 1, 2, 3, 4, 5] : List ℚ).max? = some 5 from rfl] at hmx
    cases hmx
    norm_num at h2
  exact ⟨h.1.2 hnin, h.2.1.2 (Or.inl hnin)⟩

/-- Witness for C5, on the spec's worked example: `getColumn("data",
offset=1, length=2)` returns `[20, 30]`, and an absent column name yields
the explicit `None` result. -/
theorem getColumn_resolution_witness :
    getColumn exTable "data" 1 (-1) 2 = .ok (some [20, 30]) ∧
    getColumn exTable "nodata" 0 (-1) (-1) = .ok none := by
  have h := getColumn_resolution exTable "data" 1 (-1) 2
    [[0, 10], [1, 20], [2, 30], [3, 40], [4, 50], [5, 60]] rfl (by decide)
  have h2 := getColumn_resolution exTable "nodata" 0 (-1) (-1)
    [[0, 10], [1, 20], [2, 30], [3, 40], [4, 50], [5, 60]] rfl (by decide)
  exact ⟨(h.2 (by decide)).trans rfl, h2.1 (by decide)⟩

/-- Witness for C6 (amended): the worked example table has 6 rows over a
duration of 5 time units, so its derived sampling rate is the finite value
`6 / 5`; a two-row constant-timestamp table gets sampling rate `inf`. -/
theorem samplingRate_default_witness :
    getSamplingRate (TableDto.make ["Timestamp", "data"]
      (some [[0, 10], [1, 20], [2, 30], [3, 40], [4, 50], [5, 60]]) "" none) =
      .finite (6 / 5) ∧
    getSamplingRate (TableDto.make ["Timestamp", "data"]
      (some [[6, 1], [6, 2]]) "" none) = .posInf := by
  have h := (samplingRate_default ["Timestamp", "data"]
    [[0, 10], [1, 20], [2, 30], [3, 40], [4, 50], [5, 60]] "").1 5 rfl (by norm_num)
  have h2 := (samplingRate_default ["Timestamp", "data"]
    [[6, 1], [6, 2]] "").2.2 rfl (by norm_num)
  rw [h, h2]
  norm_num

/-- Witness for C7: `normalize [2, -5, 0]` stays within `[-1, 1]` (its value
is `[2/5, -1, 0]`), and an all-zero list is returned unchanged. -/
theorem normalize_unit_range_witness :
    (∀ x ∈ Adas.normalize [2, -5, 0], -1 ≤ x ∧ x ≤ 1) ∧
    Adas.normalize [2, -5, 0] = [2 / 5, -1, 0] ∧
    Adas.normalize [0, 0, 0] = [0, 0, 0] :=
  ⟨(normalize_unit_range [2, -5, 0] (by decide)).1, rfl,
    (normalize_unit_range [0, 0, 0] (by decide)).2.2 (by decide)⟩

/-- Witness for C10: extreme integer arguments (offset past the row count,
negative limit) still produce an `ok` sequence on the worked example. -/
theorem getColumn_total_witness :
    ∃ res, getColumn exTable "data" 100 (-50) 7 = .ok (some res) :=
  getColumn_total exTable "data" 100 (-50) 7
    [[0, 10], [1, 20], [2, 30], [3, 40], [4, 50], [5, 60]] rfl (by decide) (by decide)

end Adas
